import Mathlib

/-
Verification development for media_downloader.py (telegram media downloader).

The Python source is shallowly embedded below:
* pure helpers (the ids_to_retry computation of `update_config`, `_can_download`,
  `_get_media_meta`) become Lean functions; Python exceptions (KeyError,
  IndexError, AttributeError) are modelled by returning `none`;
* the effectful download pipeline (`download_media`, `process_messages`,
  `begin_import`) is modelled by explicit state passing: the mutable globals
  DOWNLOADED_IDS / FAILED_IDS and call counters become a `Trace` record, and
  the external world (filesystem existence checks, the pyrogram download
  primitive, message re-fetching) becomes an `Env` of oracle functions.
-/

/-- The Python `max` over a list of naturals (0 for the empty list; every
dispatch site below only applies it to non-empty lists, matching the source
where `max([])` would raise). -/
def listMax (l : List Nat) : Nat := l.foldl max 0

/-- Embeds the `ids_to_retry` computation of `update_config` (src line 42-44):
`config["ids_to_retry"] = list(set(config["ids_to_retry"]) - set(DOWNLOADED_IDS)) + FAILED_IDS`.
`set(a) - set(b)` is modelled by `dedup` + `filter` (Python set order is
unspecified; every claim about the backlog is a membership claim, which is
order-independent); the list concatenation `+ FAILED_IDS` is `++`.
The file write and logging are omitted (external I/O). -/
def update_config (ids_to_retry downloaded failed : List Nat) : List Nat :=
  (ids_to_retry.dedup.filter fun i => decide (i ∉ downloaded)) ++ failed

/-- Python membership `file_format in allowed_formats` where `file_format` is
`Optional[str]` and the list holds strings: `None in [...strings...]` is False. -/
def optMem (fmt : Option String) (l : List String) : Bool :=
  match fmt with
  | none => false
  | some s => decide (s ∈ l)

/-- Embeds `_can_download` (src lines 51-75).  The result is `Option Bool`:
`none` models an uncaught exception — `file_formats[_type]` raising KeyError
when the key is absent (the dict is modelled as `String → Option (List String)`),
or `allowed_formats[0]` raising IndexError on an empty list.  The Python
short-circuit `and` is mirrored: `allowed_formats[0]` is only read when
`file_format not in allowed_formats` is True. -/
def _can_download (t : String) (file_formats : String → Option (List String))
    (file_format : Option String) : Option Bool :=
  if t ∈ (["audio", "document", "video"] : List String) then
    match file_formats t with
    | none => none
    | some allowed_formats =>
      if optMem file_format allowed_formats then some true
      else
        match allowed_formats with
        | [] => none
        | a0 :: _ => if a0 ≠ "all" then some false else some true
  else some true

/-- Models `THIS_DIR = os.path.dirname(os.path.abspath(__file__))` as an
opaque constant string. -/
def THIS_DIR : String := "THIS_DIR"

/-- Models `os.path.join(THIS_DIR, _type, x)`. -/
def pathJoin (t x : String) : String := THIS_DIR ++ "/" ++ t ++ "/" ++ x

/-- Models `mime_type.split("/")[-1]`. -/
def mimeSubtype (s : String) : String := (s.splitOn "/").getLastD ""

/-- One media object (`Audio`/`Document`/`Photo`/`Video`/`Voice`/`VideoNote`):
the attributes `_get_media_meta` touches, each optional as in the pyrogram
data model (`Photo` has no `file_name` attribute, modelled as `none`; `date`
is modelled by its `isoformat()` string). -/
structure MediaObj where
  mime_type : Option String
  file_name : Option String
  date : Option String
deriving DecidableEq, Repr

/-- Embeds `_get_media_meta` (src lines 95-135).  `none` models an uncaught
AttributeError: for audio/document/video, and again for voice/video_note,
`media_obj.mime_type.split("/")` is dereferenced unconditionally (fails when
`mime_type is None`); for voice/video_note `media_obj.date.isoformat()` is
also dereferenced (fails when `date is None`).  For the remaining types the
name is `os.path.join(THIS_DIR, _type, getattr(media_obj, "file_name", None) or "")`
and the format stays `None`.  Returns `(file_name, file_format)`. -/
def _get_media_meta (media_obj : MediaObj) (t : String) :
    Option (String × Option String) :=
  if t ∈ (["audio", "document", "video"] : List String) then
    match media_obj.mime_type with
    | none => none
    | some mt =>
      some (pathJoin t (media_obj.file_name.getD ""), some (mimeSubtype mt))
  else if t ∈ (["voice", "video_note"] : List String) then
    match media_obj.mime_type with
    | none => none
    | some mt =>
      match media_obj.date with
      | none => none
      | some d =>
        some (pathJoin t (t ++ "_" ++ d ++ "." ++ mimeSubtype mt),
              some (mimeSubtype mt))
  else
    some (pathJoin t (media_obj.file_name.getD ""), none)

/-- A Telegram message as `download_media` sees it: its `id`, its chat id, and
the attached media.  `media = none` models `message.media is None`; a message
carries at most one media variant, stored with the variant name that
`getattr(message, _type)` matches (pyrogram sets exactly one of the
`audio`/`document`/`photo`/`video`/`voice`/`video_note` attributes). -/
structure Message where
  id : Nat
  chatId : Nat
  media : Option (String × MediaObj)
deriving DecidableEq, Repr

/-- Models `getattr(message, _type, None)`. -/
def mediaOf (msg : Message) (t : String) : Option MediaObj :=
  match msg.media with
  | none => none
  | some (t2, obj) => if t2 = t then some obj else none

/-- The exception taxonomy of `download_media`: `pyrogram...BadRequest`
(expired file reference), `TypeError` (timeout class), and any other
exception. -/
inductive PyErr
  | expired
  | timeout
  | other
deriving DecidableEq, Repr

/-- Outcome of one invocation of the external download primitive
`client.download_media`: a returned path (possibly `None`) or a raised
exception. -/
inductive CallRes
  | ok (path : Option String)
  | exn (e : PyErr)
deriving DecidableEq, Repr

/-- Record of one completed download of an item: whether the pre-resolved
destination existed (`_is_exist(file_name)` was True, so `get_next_name` was
used) and whether `manage_duplicate_file` was invoked on the downloaded
path. -/
structure DlEvent where
  existed : Bool
  deduped : Bool
deriving DecidableEq, Repr

/-- The mutable run state threaded through the pipeline: the globals
`DOWNLOADED_IDS` and `FAILED_IDS`, the record of completed downloads,
the number of invocations of the download primitive so far (index into the
call oracle), and the number of retry-loop iterations entered. -/
structure Trace where
  downloaded : List Nat
  failed : List Nat
  events : List DlEvent
  calls : Nat
  attempts : Nat
deriving DecidableEq, Repr

/-- The state at the start of a `download_media` call on a fresh run. -/
def Trace.init : Trace := ⟨[], [], [], 0, 0⟩

/-- The external world `download_media` interacts with, as oracle functions:
the filesystem existence check `_is_exist`, the renamer `get_next_name`
(from utils, outside src/, kept opaque — only which branch runs matters to
the claims), the download primitive (indexed by call number, covering every
possible sequence of outcomes), and `client.get_messages(chat_id, message_ids)`
used to re-fetch after an expired reference. -/
structure Env where
  isExist : String → Bool
  nextName : String → String
  call : Nat → CallRes
  refetch : Nat → Nat → Message

/-- Embeds the body of one retry iteration of `download_media` (src lines
174-196): the `for _type in media_types` loop.  For each requested type with
a matching media attribute it runs `_get_media_meta` and `_can_download`
(where `none` from either models an uncaught exception, caught by the generic
`except Exception` handler, hence `PyErr.other`), then either the collision
branch (`_is_exist` true: `get_next_name`, download, `manage_duplicate_file`)
or the plain branch (download only), records the download event and appends
`message.id` to `DOWNLOADED_IDS`.  A raised exception aborts the loop,
keeping the effects performed so far (`Except.error` carries the state). -/
def runTypes (env : Env) (msg : Message)
    (file_formats : String → Option (List String)) :
    List String → Trace → Except (PyErr × Trace) Trace
  | [], tr => Except.ok tr
  | t :: rest, tr =>
    match mediaOf msg t with
    | none => runTypes env msg file_formats rest tr
    | some obj =>
      match _get_media_meta obj t with
      | none => Except.error (PyErr.other, tr)
      | some (file_name, file_format) =>
        match _can_download t file_formats file_format with
        | none => Except.error (PyErr.other, tr)
        | some false => runTypes env msg file_formats rest tr
        | some true =>
          if env.isExist file_name then
            match env.call tr.calls with
            | CallRes.exn e => Except.error (e, { tr with calls := tr.calls + 1 })
            | CallRes.ok _ =>
              runTypes env msg file_formats rest
                { tr with calls := tr.calls + 1,
                          downloaded := tr.downloaded ++ [msg.id],
                          events := tr.events ++ [⟨true, true⟩] }
          else
            match env.call tr.calls with
            | CallRes.exn e => Except.error (e, { tr with calls := tr.calls + 1 })
            | CallRes.ok _ =>
              runTypes env msg file_formats rest
                { tr with calls := tr.calls + 1,
                          downloaded := tr.downloaded ++ [msg.id],
                          events := tr.events ++ [⟨false, false⟩] }

/-- Embeds the `for retry in range(3)` loop of `download_media` (src lines
172-236).  `fuel` counts the iterations still available: the call with
`fuel = 3` is `retry = 0`, so `retry == 2` is `fuel = 1`, i.e. `fuel = 0`
inside the `fuel + 1` pattern.  On `BadRequest` the message is re-fetched and
the next iteration uses the re-fetched message; on `TypeError` it sleeps
(time is not modelled) and retries; on the third such failure the handler
appends to `FAILED_IDS` and the loop ends.  Any other exception appends to
`FAILED_IDS` and breaks immediately.  Returns `message.id` and the final
state. -/
def attemptLoop (env : Env) (media_types : List String)
    (file_formats : String → Option (List String)) :
    Nat → Message → Trace → Nat × Trace
  | 0, msg, tr => (msg.id, tr)
  | fuel + 1, msg, tr =>
    if msg.media = none then (msg.id, { tr with attempts := tr.attempts + 1 })
    else
      match runTypes env msg file_formats media_types
              { tr with attempts := tr.attempts + 1 } with
      | Except.ok tr2 => (msg.id, tr2)
      | Except.error (PyErr.expired, tr2) =>
        let msg2 := env.refetch msg.chatId msg.id
        if fuel = 0 then (msg2.id, { tr2 with failed := tr2.failed ++ [msg2.id] })
        else attemptLoop env media_types file_formats fuel msg2 tr2
      | Except.error (PyErr.timeout, tr2) =>
        if fuel = 0 then (msg.id, { tr2 with failed := tr2.failed ++ [msg.id] })
        else attemptLoop env media_types file_formats fuel msg tr2
      | Except.error (PyErr.other, tr2) =>
        (msg.id, { tr2 with failed := tr2.failed ++ [msg.id] })

/-- Embeds `download_media` (src lines 138-236): the 3-iteration retry loop
started on a given run state. -/
def download_media (env : Env) (msg : Message) (media_types : List String)
    (file_formats : String → Option (List String)) : Nat × Trace :=
  attemptLoop env media_types file_formats 3 msg Trace.init

/-- Embeds the `asyncio.gather` of `process_messages` (src lines 270-275):
each message in the batch runs `download_media` against its own view of the
external world (`envs i` for the i-th message — concurrent tasks may observe
any interleaving of oracle outcomes), and the list of returned ids is
collected in batch order. -/
def runAll (envs : Nat → Env) (media_types : List String)
    (file_formats : String → Option (List String)) :
    Nat → List Message → List Nat
  | _, [] => []
  | i, m :: rest =>
    (download_media (envs i) m media_types file_formats).1 ::
      runAll envs media_types file_formats (i + 1) rest

/-- Embeds `process_messages` (src lines 239-278): gather the per-message
results and return `max(message_ids)`. -/
def process_messages (envs : Nat → Env) (msgs : List Message)
    (media_types : List String)
    (file_formats : String → Option (List String)) : Nat :=
  listMax (runAll envs media_types file_formats 0 msgs)

/-- The pagination state of `begin_import` (src lines 308-338), at the id
level: `buf` is `messages_list` (message ids in buffer order), `count` is
`pagination_count`, `last` is `last_read_message_id`, `loopBatches` collects
the batches passed to `process_messages` inside the `async for` loop,
`wms` the watermark returned by each such call, and `persisted` the
`last_read_message_id` values written by `update_config` after each in-loop
batch.  The Batch Dispatcher is represented by `listMax` of the batch ids,
which is exactly what `process_messages` returns
(theorem `process_messages_max_id` below). -/
structure PgState where
  buf : List Nat
  count : Nat
  last : Nat
  loopBatches : List (List Nat)
  wms : List Nat
  persisted : List Nat
deriving DecidableEq, Repr

/-- One iteration of the `async for message in messages_iter` loop (src lines
323-338): if `pagination_count != pagination_limit`, count and append;
otherwise dispatch the buffer, reset the count to 0, restart the buffer with
the just-fetched triggering message, set `last_read_message_id` to the
returned watermark and persist it via `update_config`. -/
def pgStep (limit : Nat) (s : PgState) (m : Nat) : PgState :=
  if s.count ≠ limit then
    { s with count := s.count + 1, buf := s.buf ++ [m] }
  else
    { buf := [m], count := 0, last := listMax s.buf,
      loopBatches := s.loopBatches ++ [s.buf],
      wms := s.wms ++ [listMax s.buf],
      persisted := s.persisted ++ [listMax s.buf] }

/-- The whole `async for` loop over the fetched history ids. -/
def pgLoop (limit : Nat) : PgState → List Nat → PgState
  | s, [] => s
  | s, m :: rest => pgLoop limit (pgStep limit s m) rest

/-- The observable outcome of one `begin_import` run: all dispatched batches
(the in-loop ones plus, when the buffer is non-empty at stream exhaustion,
the final remainder batch), the in-loop (non-final) batches alone, the
sequence of watermarks assigned to `last_read_message_id`, the checkpoints
written by `update_config` inside the loop, and the final
`last_read_message_id` put back into the config (src line 348). -/
structure PgResult where
  batches : List (List Nat)
  nonFinalBatches : List (List Nat)
  wms : List Nat
  persisted : List Nat
  last : Nat
deriving DecidableEq, Repr

/-- Embeds the pagination controller of `begin_import` (src lines 308-349) at
the message-id level.  The buffer is seeded with the `ids_to_retry` backlog
messages, `pagination_count` starts at the backlog size, then the history
stream is consumed by `pgLoop`; at exhaustion a non-empty buffer is
dispatched once more without a checkpoint write. -/
def begin_import (backlog history : List Nat) (limit : Nat)
    (initLast : Nat) : PgResult :=
  let s0 : PgState := ⟨backlog, backlog.length, initLast, [], [], []⟩
  let s := pgLoop limit s0 history
  if s.buf.isEmpty then
    ⟨s.loopBatches, s.loopBatches, s.wms, s.persisted, s.last⟩
  else
    ⟨s.loopBatches ++ [s.buf], s.loopBatches, s.wms ++ [listMax s.buf],
     s.persisted, listMax s.buf⟩

/-- A format-allowlist map sending every type to `["all"]`. -/
def ffAll : String → Option (List String) := fun _ => some ["all"]

/-- A format-allowlist map whose audio allowlist starts with the sentinel but
has a second element. -/
def ffMix : String → Option (List String) := fun t =>
  if t = "audio" then some ["all", "mp3"] else some ["all"]

/-- A format-allowlist map with no keys at all (missing-key `file_formats`). -/
def ffNone : String → Option (List String) := fun _ => none

/-- A format-allowlist map sending every type to the empty allowlist. -/
def ffEmptyList : String → Option (List String) := fun _ => some []

/-- A concrete photo media object. -/
def objPhoto : MediaObj := ⟨none, some "a.jpg", none⟩

/-- A concrete message with id 7 carrying a photo. -/
def msgPhoto : Message := ⟨7, 1, some ("photo", objPhoto)⟩

/-- A concrete message with id 7 carrying no media. -/
def msgNoMedia : Message := ⟨7, 1, none⟩

/-- A re-fetch oracle honouring the capability contract: `get_messages`
returns the message with the requested id (here with no media). -/
def refetchNone : Nat → Nat → Message := fun c i => ⟨i, c, none⟩

/-- World in which every download-primitive call raises an unclassified
exception. -/
def envOtherErr : Env := ⟨fun _ => false, id, fun _ => CallRes.exn PyErr.other, refetchNone⟩

/-- World in which every download-primitive call succeeds and no destination
path exists beforehand. -/
def envOk : Env := ⟨fun _ => false, id, fun _ => CallRes.ok (some "p"), refetchNone⟩

/-- World in which the first download-primitive call succeeds and every later
one raises an unclassified exception. -/
def envOkThenErr : Env :=
  ⟨fun _ => false, id,
   fun k => if k = 0 then CallRes.ok (some "p") else CallRes.exn PyErr.other,
   refetchNone⟩

/-- A constant family of worlds for a batch (every task sees `envOk`). -/
def envsOk : Nat → Env := fun _ => envOk

/-- A concrete message with id 5 carrying no media. -/
def msgFive : Message := ⟨5, 1, none⟩

/-- Invariant carried across the pagination loop, relative to the not yet
fetched history suffix `rest`: watermarks so far are sorted, each is bounded
by the running maximum of the buffer, and everything seen so far lies below
everything still to come. -/
def pgInv (s : PgState) (rest : List Nat) : Prop :=
  s.wms.Pairwise (· ≤ ·)
  ∧ (∀ w ∈ s.wms, w ≤ listMax s.buf)
  ∧ (∀ w ∈ s.wms, ∀ y ∈ rest, w ≤ y)
  ∧ (∀ x ∈ s.buf, ∀ y ∈ rest, x < y)

/-- Size bookkeeping for the pagination loop: before the first dispatch the
counter equals the buffer length; afterwards it lags the buffer length by
one (the reset sets `pagination_count = 0` while `messages_list` already
holds the triggering message), and the dispatched batch sizes are `limit`
for the first and `limit + 1` for every later one. -/
def pgSizeInv (limit : Nat) (s : PgState) : Prop :=
  s.count ≤ limit
  ∧ ((s.loopBatches = [] ∧ s.count = s.buf.length)
     ∨ (s.count + 1 = s.buf.length
        ∧ ∃ f t, s.loopBatches = f :: t ∧ f.length = limit
            ∧ ∀ b ∈ t, b.length = limit + 1))

/-- Concatenation of a list of batches (the ids they jointly contain). -/
def joinAll : List (List Nat) → List Nat
  | [] => []
  | b :: bs => b ++ joinAll bs

theorem foldl_max_eq (i : Nat) (l : List Nat) : l.foldl max i = max i (listMax l) := by
  induction l generalizing i with
  | nil => simp [listMax]
  | cons x xs ih =>
    show List.foldl max (max i x) xs = max i (listMax (x :: xs))
    have h2 : listMax (x :: xs) = List.foldl max (max 0 x) xs := rfl
    rw [ih (max i x), h2, ih (max 0 x)]
    omega

theorem listMax_cons (x : Nat) (l : List Nat) : listMax (x :: l) = max x (listMax l) := by
  have h : listMax (x :: l) = List.foldl max (max 0 x) l := rfl
  rw [h, foldl_max_eq]
  omega

theorem listMax_singleton (x : Nat) : listMax [x] = x := by
  simp [listMax]

theorem listMax_append (a b : List Nat) :
    listMax (a ++ b) = max (listMax a) (listMax b) := by
  induction a with
  | nil => simp [listMax]
  | cons x xs ih =>
    rw [List.cons_append, listMax_cons, listMax_cons, ih]
    omega

theorem le_listMax_of_mem {x : Nat} {l : List Nat} (h : x ∈ l) : x ≤ listMax l := by
  induction l with
  | nil => cases h
  | cons y ys ih =>
    rw [listMax_cons]
    rcases List.mem_cons.mp h with h1 | h1
    · omega
    · have := ih h1; omega

theorem listMax_le_of_forall {l : List Nat} {m : Nat} (h : ∀ x ∈ l, x ≤ m) :
    listMax l ≤ m := by
  induction l with
  | nil => simp [listMax]
  | cons y ys ih =>
    rw [listMax_cons]
    have h1 := h y (List.mem_cons_self y ys)
    have h2 := ih fun x hx => h x (List.mem_cons_of_mem y hx)
    omega

theorem listMax_mem {l : List Nat} (h : l ≠ []) : listMax l ∈ l := by
  induction l with
  | nil => exact absurd rfl h
  | cons y ys ih =>
    rw [listMax_cons]
    rcases ys with _ | ⟨z, zs⟩
    · simp [listMax]
    · rcases Nat.le_total y (listMax (z :: zs)) with h1 | h1
      · rw [Nat.max_eq_right h1]
        exact List.mem_cons_of_mem y (ih (by simp))
      · rw [Nat.max_eq_left h1]
        exact List.mem_cons_self y _

theorem mem_update_config (ids downloaded failed : List Nat) (i : Nat) :
    i ∈ update_config ids downloaded failed ↔
      (i ∈ ids ∧ i ∉ downloaded) ∨ i ∈ failed := by
  simp [update_config, List.mem_filter, List.mem_dedup]

/-- Claim C1, counterexample.  A concrete `download_media` run (two requested
"photo" entries: the first download succeeds and appends to DOWNLOADED_IDS,
the second raises an unclassified exception and appends to FAILED_IDS) leaves
id 7 in BOTH the newly-succeeded and newly-failed lists; `update_config` then
keeps 7 in the persisted backlog even though 7 ended in newlySucceededIds,
refuting "if i ends in newlySucceededIds then i is not in retryBacklog2". -/
theorem update_config_succeeded_id_stays_cex :
    (download_media envOkThenErr msgPhoto ["photo", "photo"] ffAll).2.downloaded = [7]
    ∧ (download_media envOkThenErr msgPhoto ["photo", "photo"] ffAll).2.failed = [7]
    ∧ 7 ∈ update_config [] [7] [7] := by decide

/-- Claim C1 (amended): `update_config` sets the persisted backlog to
`(retryBacklog - newlySucceededIds) ∪ newlyFailedIds` (as sets); hence every
newly-failed id is in the new backlog, and a newly-succeeded id is absent
provided it did not also end in the newly-failed list (the two lists can
overlap, see the counterexample). -/
theorem update_config_backlog_reconciliation
    (ids downloaded failed : List Nat) (i : Nat) :
    (i ∈ update_config ids downloaded failed ↔
      (i ∈ ids ∧ i ∉ downloaded) ∨ i ∈ failed)
    ∧ (i ∈ failed → i ∈ update_config ids downloaded failed)
    ∧ (i ∈ downloaded → i ∉ failed → i ∉ update_config ids downloaded failed) := by
  refine ⟨mem_update_config ids downloaded failed i, ?_, ?_⟩
  · intro h
    exact (mem_update_config ids downloaded failed i).mpr (Or.inr h)
  · intro hd hf hmem
    rcases (mem_update_config ids downloaded failed i).mp hmem with ⟨_, hnd⟩ | hfy
    · exact hnd hd
    · exact hf hfy

/-- Witness for the amended claim C1 at concrete inputs. -/
theorem update_config_backlog_reconciliation_witness :
    3 ∈ update_config [1, 2] [2] [3] ∧ 2 ∉ update_config [1, 2] [2] [3] :=
  ⟨(update_config_backlog_reconciliation [1, 2] [2] [3] 3).2.1 (by decide),
   (update_config_backlog_reconciliation [1, 2] [2] [3] 2).2.2 (by decide) (by decide)⟩

/-- Claim C2, counterexample.  With the audio allowlist `["all", "mp3"]` and
derived format "ogg", `_can_download` accepts (the code only compares the
FIRST element of the allowlist with the sentinel), yet "ogg" is not in the
allowlist and the allowlist is not the sentinel `["all"]` — so the claimed
"accepts iff format in allowlist or allowlist is the sentinel" is false. -/
theorem can_download_sentinel_head_cex :
    _can_download "audio" ffMix (some "ogg") = some true
    ∧ optMem (some "ogg") ["all", "mp3"] = false
    ∧ (["all", "mp3"] : List String) ≠ ["all"]
    ∧ ffMix "audio" = some ["all", "mp3"] := by decide

/-- Claim C2 (amended): for audio/document/video with a present, non-empty
allowlist, `_can_download` accepts iff the derived format appears in the
allowlist or the FIRST element of the allowlist is the sentinel "all" (and
rejects iff neither holds); every type outside audio/document/video is
always accepted, never format-filtered. -/
theorem can_download_format_gate (t : String)
    (ff : String → Option (List String)) (fmt : Option String)
    (allowed : List String) :
    (t ∈ (["audio", "document", "video"] : List String) →
      ff t = some allowed → allowed ≠ [] →
      ((_can_download t ff fmt = some true ↔
          (optMem fmt allowed = true ∨ allowed.headD "" = "all"))
       ∧ (_can_download t ff fmt = some false ↔
          (optMem fmt allowed = false ∧ allowed.headD "" ≠ "all"))))
    ∧ (t ∉ (["audio", "document", "video"] : List String) →
        _can_download t ff fmt = some true) := by
  constructor
  · intro ht hff hne
    rcases allowed with _ | ⟨a0, rest⟩
    · exact absurd rfl hne
    · by_cases hm : optMem fmt (a0 :: rest) = true
      · constructor <;> simp [_can_download, ht, hff, hm]
      · by_cases ha : a0 = "all"
        · constructor <;>
            simp [_can_download, ht, hff, Bool.eq_false_iff.mpr hm, ha]
        · constructor <;>
            simp [_can_download, ht, hff, Bool.eq_false_iff.mpr hm, ha]
  · intro ht
    simp [_can_download, ht]

/-- Witness for the amended claim C2 at concrete inputs. -/
theorem can_download_format_gate_witness :
    _can_download "audio" ffMix (some "mp3") = some true
    ∧ _can_download "photo" ffMix none = some true :=
  ⟨(((can_download_format_gate "audio" ffMix (some "mp3") ["all", "mp3"]).1
      (by decide) (by decide) (by decide)).1).mpr (Or.inl (by decide)),
   (can_download_format_gate "photo" ffMix none ["all"]).2 (by decide)⟩

/-- Claim C9: `_get_media_meta` fails (models an uncaught AttributeError) on
every audio/document/video/voice/video_note media object whose `mime_type`
is absent, because `mime_type.split("/")` is dereferenced unconditionally;
only photo objects are handled without touching `mime_type`, and they always
yield `file_format = None`. -/
theorem get_media_meta_mime_precondition :
    (∀ t ∈ (["audio", "document", "video", "voice", "video_note"] : List String),
       ∀ m : MediaObj, m.mime_type = none → _get_media_meta m t = none)
    ∧ (∀ m : MediaObj,
        _get_media_meta m "photo"
          = some (pathJoin "photo" (m.file_name.getD ""), none)) := by
  constructor
  · intro t ht m hm
    simp only [List.mem_cons, List.not_mem_nil, or_false] at ht
    rcases ht with rfl | rfl | rfl | rfl | rfl
    · unfold _get_media_meta
      rw [if_pos (by decide), hm]
    · unfold _get_media_meta
      rw [if_pos (by decide), hm]
    · unfold _get_media_meta
      rw [if_pos (by decide), hm]
    · unfold _get_media_meta
      rw [if_neg (by decide), if_pos (by decide), hm]
    · unfold _get_media_meta
      rw [if_neg (by decide), if_pos (by decide), hm]
  · intro m
    unfold _get_media_meta
    rw [if_neg (by decide), if_neg (by decide)]

/-- Witness for claim C9 at concrete inputs. -/
theorem get_media_meta_mime_precondition_witness :
    _get_media_meta ⟨none, none, none⟩ "voice" = none
    ∧ _get_media_meta ⟨none, some "a.jpg", none⟩ "photo"
        = some (pathJoin "photo" "a.jpg", none) :=
  ⟨get_media_meta_mime_precondition.1 "voice" (by decide) ⟨none, none, none⟩ rfl,
   get_media_meta_mime_precondition.2 ⟨none, some "a.jpg", none⟩⟩

/-- Claim C10: for a type in audio/document/video, `_can_download` reads
`file_formats[_type]` and (when the format is not listed, in particular
always when the allowlist is empty) its first element: a missing key
(KeyError) or an empty allowlist (IndexError) makes the call fail — the
model returns `none` — rather than accept or reject the item. -/
theorem can_download_totality_precondition (t : String)
    (ff : String → Option (List String)) (fmt : Option String)
    (ht : t ∈ (["audio", "document", "video"] : List String)) :
    (ff t = none → _can_download t ff fmt = none)
    ∧ (ff t = some [] → _can_download t ff fmt = none) := by
  constructor
  · intro h
    unfold _can_download
    rw [if_pos ht, h]
  · intro h
    unfold _can_download
    rw [if_pos ht, h]
    rcases fmt with _ | s <;> simp [optMem]

/-- Witness for claim C10 at concrete inputs. -/
theorem can_download_totality_precondition_witness :
    _can_download "audio" ffNone (some "mp3") = none
    ∧ _can_download "audio" ffEmptyList (some "mp3") = none :=
  ⟨(can_download_totality_precondition "audio" ffNone (some "mp3") (by decide)).1 rfl,
   (can_download_totality_precondition "audio" ffEmptyList (some "mp3") (by decide)).2 rfl⟩

/-- The type loop leaves `attempts` and `FAILED_IDS` untouched and only adds
events that record a dedup call in the collision branch; stated for whichever
constructor the result has. -/
theorem runTypes_state (env : Env) (msg : Message)
    (ff : String → Option (List String)) :
    ∀ (ts : List String) (tr : Trace),
    ∃ tr2 : Trace,
      (runTypes env msg ff ts tr = Except.ok tr2
        ∨ ∃ e, runTypes env msg ff ts tr = Except.error (e, tr2))
      ∧ tr2.attempts = tr.attempts
      ∧ tr2.failed = tr.failed
      ∧ ∀ ev ∈ tr2.events, ev ∈ tr.events ∨ ev.deduped = ev.existed := by
  intro ts
  induction ts with
  | nil =>
    intro tr
    exact ⟨tr, Or.inl rfl, rfl, rfl, fun ev hv => Or.inl hv⟩
  | cons t rest ih =>
    intro tr
    cases hmo : mediaOf msg t with
    | none =>
      obtain ⟨tr2, hres, hat, hfl, hev⟩ := ih tr
      exact ⟨tr2, by simpa [runTypes, hmo] using hres, hat, hfl, hev⟩
    | some obj =>
      cases hgm : _get_media_meta obj t with
      | none =>
        exact ⟨tr, Or.inr ⟨PyErr.other, by simp [runTypes, hmo, hgm]⟩,
               rfl, rfl, fun ev hv => Or.inl hv⟩
      | some pr =>
        obtain ⟨fn, fmt⟩ := pr
        cases hcd : _can_download t ff fmt with
        | none =>
          exact ⟨tr, Or.inr ⟨PyErr.other, by simp [runTypes, hmo, hgm, hcd]⟩,
                 rfl, rfl, fun ev hv => Or.inl hv⟩
        | some b =>
          cases b with
          | false =>
            obtain ⟨tr2, hres, hat, hfl, hev⟩ := ih tr
            exact ⟨tr2, by simpa [runTypes, hmo, hgm, hcd] using hres, hat, hfl, hev⟩
          | true =>
            by_cases hex : env.isExist fn
            · cases hc : env.call tr.calls with
              | exn e =>
                exact ⟨{ tr with calls := tr.calls + 1 },
                       Or.inr ⟨e, by simp [runTypes, hmo, hgm, hcd, hex, hc]⟩,
                       rfl, rfl, fun ev hv => Or.inl hv⟩
              | ok p =>
                obtain ⟨tr2, hres, hat, hfl, hev⟩ :=
                  ih { tr with calls := tr.calls + 1,
                               downloaded := tr.downloaded ++ [msg.id],
                               events := tr.events ++ [⟨true, true⟩] }
                refine ⟨tr2, by simpa [runTypes, hmo, hgm, hcd, hex, hc] using hres,
                        hat, hfl, ?_⟩
                intro ev hv
                rcases hev ev hv with hmem | hok
                · rcases List.mem_append.mp hmem with h1 | h1
                  · exact Or.inl h1
                  · right
                    have : ev = ⟨true, true⟩ := List.mem_singleton.mp h1
                    rw [this]
                · exact Or.inr hok
            · cases hc : env.call tr.calls with
              | exn e =>
                exact ⟨{ tr with calls := tr.calls + 1 },
                       Or.inr ⟨e, by simp [runTypes, hmo, hgm, hcd, hex, hc]⟩,
                       rfl, rfl, fun ev hv => Or.inl hv⟩
              | ok p =>
                obtain ⟨tr2, hres, hat, hfl, hev⟩ :=
                  ih { tr with calls := tr.calls + 1,
                               downloaded := tr.downloaded ++ [msg.id],
                               events := tr.events ++ [⟨false, false⟩] }
                refine ⟨tr2, by simpa [runTypes, hmo, hgm, hcd, hex, hc] using hres,
                        hat, hfl, ?_⟩
                intro ev hv
                rcases hev ev hv with hmem | hok
                · rcases List.mem_append.mp hmem with h1 | h1
                  · exact Or.inl h1
                  · right
                    have : ev = ⟨false, false⟩ := List.mem_singleton.mp h1
                    rw [this]
                · exact Or.inr hok

theorem runTypes_ok_state (env : Env) (msg : Message)
    (ff : String → Option (List String)) {ts : List String} {tr tr2 : Trace}
    (h : runTypes env msg ff ts tr = Except.ok tr2) :
    tr2.attempts = tr.attempts ∧ tr2.failed = tr.failed
    ∧ ∀ ev ∈ tr2.events, ev ∈ tr.events ∨ ev.deduped = ev.existed := by
  obtain ⟨tr3, hres, hat, hfl, hev⟩ := runTypes_state env msg ff ts tr
  rcases hres with hok | ⟨e, herr⟩
  · rw [h] at hok
    cases hok
    exact ⟨hat, hfl, hev⟩
  · rw [h] at herr
    cases herr

theorem runTypes_error_state (env : Env) (msg : Message)
    (ff : String → Option (List String)) {ts : List String} {tr tr2 : Trace}
    {e : PyErr} (h : runTypes env msg ff ts tr = Except.error (e, tr2)) :
    tr2.attempts = tr.attempts ∧ tr2.failed = tr.failed
    ∧ ∀ ev ∈ tr2.events, ev ∈ tr.events ∨ ev.deduped = ev.existed := by
  obtain ⟨tr3, hres, hat, hfl, hev⟩ := runTypes_state env msg ff ts tr
  rcases hres with hok | ⟨e2, herr⟩
  · rw [h] at hok
    cases hok
  · rw [h] at herr
    injection herr with herr2
    injection herr2 with he ht
    cases he
    cases ht
    exact ⟨hat, hfl, hev⟩

/-- The retry loop returns the id of the message it was called on, as long as
the re-fetch oracle honours the capability contract (`get_messages(c, j)`
returns the message with id `j`). -/
theorem attemptLoop_fst (env : Env) (mt : List String)
    (ff : String → Option (List String))
    (hr : ∀ c j, (env.refetch c j).id = j) :
    ∀ (fuel : Nat) (msg : Message) (tr : Trace),
      (attemptLoop env mt ff fuel msg tr).1 = msg.id := by
  intro fuel
  induction fuel with
  | zero => intro msg tr; rfl
  | succ n ih =>
    intro msg tr
    by_cases hm : msg.media = none
    · simp [attemptLoop, hm]
    · cases hrt : runTypes env msg ff mt { tr with attempts := tr.attempts + 1 } with
      | ok tr2 => simp [attemptLoop, hm, hrt]
      | error p =>
        obtain ⟨e, tr2⟩ := p
        cases e with
        | expired =>
          by_cases hn : n = 0
          · simp [attemptLoop, hm, hrt, hn, hr]
          · simp [attemptLoop, hm, hrt, hn, ih, hr]
        | timeout =>
          by_cases hn : n = 0
          · simp [attemptLoop, hm, hrt, hn]
          · simp [attemptLoop, hm, hrt, hn, ih]
        | other => simp [attemptLoop, hm, hrt]

/-- Each retry-loop iteration increments the attempt counter once, so the
loop adds at most `fuel` attempts. -/
theorem attemptLoop_attempts_le (env : Env) (mt : List String)
    (ff : String → Option (List String)) :
    ∀ (fuel : Nat) (msg : Message) (tr : Trace),
      (attemptLoop env mt ff fuel msg tr).2.attempts ≤ tr.attempts + fuel := by
  intro fuel
  induction fuel with
  | zero => intro msg tr; simp [attemptLoop]
  | succ n ih =>
    intro msg tr
    by_cases hm : msg.media = none
    · simp [attemptLoop, hm]
    · cases hrt : runTypes env msg ff mt { tr with attempts := tr.attempts + 1 } with
      | ok tr2 =>
        have hat := (runTypes_ok_state env msg ff hrt).1
        simp only [Trace.mk.injEq] at hat
        simp [attemptLoop, hm, hrt]
        omega
      | error p =>
        obtain ⟨e, tr2⟩ := p
        have hat := (runTypes_error_state env msg ff hrt).1
        cases e with
        | expired =>
          by_cases hn : n = 0
          · simp [attemptLoop, hm, hrt, hn]
            simp at hat
            omega
          · have hb := ih (env.refetch msg.chatId msg.id) tr2
            simp [attemptLoop, hm, hrt, hn]
            simp at hat
            omega
        | timeout =>
          by_cases hn : n = 0
          · simp [attemptLoop, hm, hrt, hn]
            simp at hat
            omega
          · have hb := ih msg tr2
            simp [attemptLoop, hm, hrt, hn]
            simp at hat
            omega
        | other =>
          simp [attemptLoop, hm, hrt]
          simp at hat
          omega

/-- Every event recorded by the retry loop satisfies any property it had on
entry plus the dedup-iff-collision shape for newly recorded ones. -/
theorem attemptLoop_events (env : Env) (mt : List String)
    (ff : String → Option (List String)) :
    ∀ (fuel : Nat) (msg : Message) (tr : Trace),
      (∀ ev ∈ tr.events, ev.deduped = ev.existed) →
      ∀ ev ∈ (attemptLoop env mt ff fuel msg tr).2.events,
        ev.deduped = ev.existed := by
  intro fuel
  induction fuel with
  | zero => intro msg tr h; simpa [attemptLoop] using h
  | succ n ih =>
    intro msg tr h
    have h1 : ∀ ev ∈ ({ tr with attempts := tr.attempts + 1 } : Trace).events,
        ev.deduped = ev.existed := h
    by_cases hm : msg.media = none
    · simpa [attemptLoop, hm] using h
    · cases hrt : runTypes env msg ff mt { tr with attempts := tr.attempts + 1 } with
      | ok tr2 =>
        have hev := (runTypes_ok_state env msg ff hrt).2.2
        simp only [attemptLoop, if_neg hm, hrt]
        intro ev hv
        rcases hev ev hv with h2 | h2
        · exact h1 ev h2
        · exact h2
      | error p =>
        obtain ⟨e, tr2⟩ := p
        have hev := (runTypes_error_state env msg ff hrt).2.2
        have h2 : ∀ ev ∈ tr2.events, ev.deduped = ev.existed := by
          intro ev hv
          rcases hev ev hv with h3 | h3
          · exact h1 ev h3
          · exact h3
        cases e with
        | expired =>
          by_cases hn : n = 0
          · simpa [attemptLoop, hm, hrt, hn] using h2
          · have hb := ih (env.refetch msg.chatId msg.id) tr2 h2
            simpa [attemptLoop, hm, hrt, hn] using hb
        | timeout =>
          by_cases hn : n = 0
          · simpa [attemptLoop, hm, hrt, hn] using h2
          · have hb := ih msg tr2 h2
            simpa [attemptLoop, hm, hrt, hn] using hb
        | other =>
          simpa [attemptLoop, hm, hrt] using h2

/-- Claim C4: for every non-empty batch and any interleaving of external
outcomes, `process_messages` returns the maximum message id across the batch
— `download_media` returns the id of the message it was given whether the
item succeeded, was skipped, or failed permanently (given the capability
contract that re-fetching id `j` yields the message with id `j`). -/
theorem process_messages_max_id (envs : Nat → Env) (msgs : List Message)
    (mt : List String) (ff : String → Option (List String))
    (hr : ∀ i c j, ((envs i).refetch c j).id = j) (hne : msgs ≠ []) :
    process_messages envs msgs mt ff = listMax (msgs.map Message.id)
    ∧ process_messages envs msgs mt ff ∈ msgs.map Message.id
    ∧ ∀ m ∈ msgs, m.id ≤ process_messages envs msgs mt ff := by
  have hids : ∀ (i : Nat) (ms : List Message),
      runAll envs mt ff i ms = ms.map Message.id := by
    intro i ms
    induction ms generalizing i with
    | nil => rfl
    | cons m rest ih =>
      show (download_media (envs i) m mt ff).1 :: runAll envs mt ff (i + 1) rest
            = m.id :: rest.map Message.id
      rw [ih (i + 1)]
      rw [show (download_media (envs i) m mt ff).1 = m.id from
            attemptLoop_fst (envs i) mt ff (hr i) 3 m Trace.init]
  have h1 : process_messages envs msgs mt ff = listMax (msgs.map Message.id) := by
    unfold process_messages
    rw [hids]
  refine ⟨h1, ?_, ?_⟩
  · rw [h1]
    exact listMax_mem (by simpa using hne)
  · intro m hm
    rw [h1]
    exact le_listMax_of_mem (List.mem_map_of_mem Message.id hm)

/-- Witness for claim C4 at a concrete two-message batch. -/
theorem process_messages_max_id_witness :
    process_messages envsOk [msgFive, msgNoMedia] ["photo"] ffAll
      = listMax ([msgFive, msgNoMedia].map Message.id) :=
  (process_messages_max_id envsOk [msgFive, msgNoMedia] ["photo"] ffAll
    (fun _ _ _ => rfl) (by decide)).1

/-- Claim C5: the retry loop of `download_media` performs at most 3
attempts in every world; and whenever an iteration raises an unclassified
error (`PyErr.other` — neither expired-reference nor timeout-class), the
loop ends right there regardless of how many retries remain, appending the
message id to FAILED_IDS (permanent failure). -/
theorem download_media_retry_bound (env : Env) (mt : List String)
    (ff : String → Option (List String)) (msg : Message) :
    (download_media env msg mt ff).2.attempts ≤ 3
    ∧ ∀ (fuel : Nat) (tr tr2 : Trace), msg.media ≠ none →
        runTypes env msg ff mt { tr with attempts := tr.attempts + 1 }
          = Except.error (PyErr.other, tr2) →
        attemptLoop env mt ff (fuel + 1) msg tr
          = (msg.id, { tr2 with failed := tr2.failed ++ [msg.id] }) := by
  constructor
  · have := attemptLoop_attempts_le env mt ff 3 msg Trace.init
    simpa [download_media, Trace.init] using this
  · intro fuel tr tr2 hm hrt
    simp [attemptLoop, hm, hrt]

/-- Witness for claim C5: a world whose download primitive always raises an
unclassified error; one attempt happens, the id is recorded as failed. -/
theorem download_media_retry_bound_witness :
    (download_media envOtherErr msgPhoto ["photo"] ffAll).2.attempts ≤ 3
    ∧ attemptLoop envOtherErr ["photo"] ffAll 3 msgPhoto Trace.init
        = (7, ⟨[], [7], [], 1, 1⟩) :=
  ⟨(download_media_retry_bound envOtherErr ["photo"] ffAll msgPhoto).1,
   (download_media_retry_bound envOtherErr ["photo"] ffAll msgPhoto).2 2
     Trace.init ⟨[], [], [], 1, 1⟩ (by decide) rfl⟩

/-- Claim C7, counterexample.  A message with no media returns its own id,
but its id is recorded ZERO times — not exactly once — in the succeeded set
(`DOWNLOADED_IDS` is only appended inside the per-type download branch,
which a no-media message never reaches). -/
theorem no_media_not_recorded_cex :
    (download_media envOk msgNoMedia ["photo"] ffAll).1 = 7
    ∧ (download_media envOk msgNoMedia ["photo"] ffAll).2.downloaded.count 7 = 0 := by
  decide

/-- Claim C7 (amended): a message carrying no media at all terminates
immediately and successfully — `download_media` returns its own id after a
single attempt with no downloads, no failures and no events — but its id is
NOT recorded in the run succeeded set `DOWNLOADED_IDS`. -/
theorem no_media_succeeds (env : Env) (mt : List String)
    (ff : String → Option (List String)) (msg : Message)
    (h : msg.media = none) :
    download_media env msg mt ff = (msg.id, { Trace.init with attempts := 1 }) := by
  simp [download_media, attemptLoop, h, Trace.init]

/-- Witness for the amended claim C7 at a concrete no-media message. -/
theorem no_media_succeeds_witness :
    download_media envOk msgNoMedia ["photo"] ffAll
      = (7, { Trace.init with attempts := 1 }) :=
  no_media_succeeds envOk ["photo"] ffAll msgNoMedia rfl

/-- Claim C8, counterexample.  A successful download whose destination name
did NOT collide with an existing file: the item succeeds (id recorded in
DOWNLOADED_IDS) but `manage_duplicate_file` is never invoked (`deduped =
false`), refuting "the post-download dedup step runs for every successful
download". -/
theorem dedup_not_run_cex :
    (download_media envOk msgPhoto ["photo"] ffAll).2.downloaded = [7]
    ∧ (download_media envOk msgPhoto ["photo"] ffAll).2.events
        = [⟨false, false⟩] := by
  decide

/-- Claim C8 (amended): `manage_duplicate_file` is run on the downloaded
path exactly for those successful downloads whose pre-resolved destination
already existed (`_is_exist` true, the `get_next_name` collision branch);
a non-colliding successful download transitions to success without the
post-download dedup step. -/
theorem dedup_iff_collision (env : Env) (msg : Message) (mt : List String)
    (ff : String → Option (List String)) :
    ∀ ev ∈ (download_media env msg mt ff).2.events, ev.deduped = ev.existed :=
  attemptLoop_events env mt ff 3 msg Trace.init (by simp [Trace.init])

/-- Witness for the amended claim C8 at a concrete non-colliding download. -/
theorem dedup_iff_collision_witness :
    (⟨false, false⟩ : DlEvent).deduped = (⟨false, false⟩ : DlEvent).existed :=
  dedup_iff_collision envOk msgPhoto ["photo"] ffAll ⟨false, false⟩ (by decide)

theorem joinAll_append (bs : List (List Nat)) (b : List Nat) :
    joinAll (bs ++ [b]) = joinAll bs ++ b := by
  induction bs with
  | nil => simp [joinAll]
  | cons c cs ih => simp [joinAll, ih]

theorem listMax_joinAll_le {bs : List (List Nat)} {M : Nat}
    (h : ∀ b ∈ bs, listMax b ≤ M) : listMax (joinAll bs) ≤ M := by
  induction bs with
  | nil => simp [joinAll, listMax]
  | cons c cs ih =>
    have h1 := h c (List.mem_cons_self c cs)
    have h2 := ih fun b hb => h b (List.mem_cons_of_mem c hb)
    show listMax (c ++ joinAll cs) ≤ M
    rw [listMax_append]
    omega

/-- One pagination step preserves the ordering invariant, given that the
just-fetched id precedes everything still to come. -/
theorem pgStep_inv (limit : Nat) (s : PgState) (m : Nat) (rest : List Nat)
    (hm : ∀ y ∈ rest, m < y) (hinv : pgInv s (m :: rest)) :
    pgInv (pgStep limit s m) rest := by
  unfold pgInv at hinv ⊢
  obtain ⟨h1, h2, h3, h4⟩ := hinv
  by_cases hc : s.count = limit
  · have e1 : pgStep limit s m =
        { buf := [m], count := 0, last := listMax s.buf,
          loopBatches := s.loopBatches ++ [s.buf],
          wms := s.wms ++ [listMax s.buf],
          persisted := s.persisted ++ [listMax s.buf] } := by
      simp [pgStep, hc]
    rw [e1]
    refine ⟨?_, ?_, ?_, ?_⟩
    · show (s.wms ++ [listMax s.buf]).Pairwise (· ≤ ·)
      rw [List.pairwise_append]
      refine ⟨h1, List.pairwise_singleton _ _, ?_⟩
      intro a ha b hb
      rw [List.mem_singleton.mp hb]
      exact h2 a ha
    · show ∀ w ∈ s.wms ++ [listMax s.buf], w ≤ listMax [m]
      intro w hw
      rw [listMax_singleton]
      rcases List.mem_append.mp hw with hin | hin
      · exact h3 w hin m (List.mem_cons_self m rest)
      · rw [List.mem_singleton.mp hin]
        exact listMax_le_of_forall fun x hx =>
          Nat.le_of_lt (h4 x hx m (List.mem_cons_self m rest))
    · show ∀ w ∈ s.wms ++ [listMax s.buf], ∀ y ∈ rest, w ≤ y
      intro w hw y hy
      rcases List.mem_append.mp hw with hin | hin
      · exact h3 w hin y (List.mem_cons_of_mem m hy)
      · rw [List.mem_singleton.mp hin]
        exact listMax_le_of_forall fun x hx =>
          Nat.le_of_lt (h4 x hx y (List.mem_cons_of_mem m hy))
    · show ∀ x ∈ [m], ∀ y ∈ rest, x < y
      intro x hx y hy
      rw [List.mem_singleton.mp hx]
      exact hm y hy
  · have e1 : pgStep limit s m =
        { s with count := s.count + 1, buf := s.buf ++ [m] } := by
      simp [pgStep, hc]
    rw [e1]
    refine ⟨h1, ?_, ?_, ?_⟩
    · show ∀ w ∈ s.wms, w ≤ listMax (s.buf ++ [m])
      intro w hw
      have := h2 w hw
      rw [listMax_append]
      omega
    · show ∀ w ∈ s.wms, ∀ y ∈ rest, w ≤ y
      intro w hw y hy
      exact h3 w hw y (List.mem_cons_of_mem m hy)
    · show ∀ x ∈ s.buf ++ [m], ∀ y ∈ rest, x < y
      intro x hx y hy
      rcases List.mem_append.mp hx with hin | hin
      · exact h4 x hin y (List.mem_cons_of_mem m hy)
      · rw [List.mem_singleton.mp hin]
        exact hm y hy

/-- The ordering invariant survives the whole loop when the history stream
is strictly ascending. -/
theorem pgLoop_inv (limit : Nat) :
    ∀ (h : List Nat) (s : PgState), pgInv s h → h.Pairwise (· < ·) →
      pgInv (pgLoop limit s h) [] := by
  intro h
  induction h with
  | nil => intro s hinv _; exact hinv
  | cons m rest ih =>
    intro s hinv hp
    have hp2 := List.pairwise_cons.mp hp
    exact ih (pgStep limit s m) (pgStep_inv limit s m rest hp2.1 hinv) hp2.2

/-- The ids ever buffered are exactly the dispatched batches plus the
residual buffer: the loop neither drops nor duplicates stream elements. -/
theorem pgLoop_join (limit : Nat) :
    ∀ (h : List Nat) (s : PgState),
      joinAll (pgLoop limit s h).loopBatches ++ (pgLoop limit s h).buf
        = joinAll s.loopBatches ++ s.buf ++ h := by
  intro h
  induction h with
  | nil => intro s; simp [pgLoop]
  | cons m rest ih =>
    intro s
    show joinAll (pgLoop limit (pgStep limit s m) rest).loopBatches
        ++ (pgLoop limit (pgStep limit s m) rest).buf
      = joinAll s.loopBatches ++ s.buf ++ (m :: rest)
    rw [ih (pgStep limit s m)]
    by_cases hc : s.count = limit
    · have e1 : pgStep limit s m =
          { buf := [m], count := 0, last := listMax s.buf,
            loopBatches := s.loopBatches ++ [s.buf],
            wms := s.wms ++ [listMax s.buf],
            persisted := s.persisted ++ [listMax s.buf] } := by
        simp [pgStep, hc]
      rw [e1]
      show joinAll (s.loopBatches ++ [s.buf]) ++ [m] ++ rest
          = joinAll s.loopBatches ++ s.buf ++ (m :: rest)
      rw [joinAll_append]
      simp
    · have e1 : pgStep limit s m =
          { s with count := s.count + 1, buf := s.buf ++ [m] } := by
        simp [pgStep, hc]
      rw [e1]
      show joinAll s.loopBatches ++ (s.buf ++ [m]) ++ rest
          = joinAll s.loopBatches ++ s.buf ++ (m :: rest)
      simp

/-- Each in-loop dispatch records its batch, its returned watermark
(`listMax` of the batch) and the checkpointed config value in lock step. -/
theorem pgLoop_wms_persisted (limit : Nat) :
    ∀ (h : List Nat) (s : PgState),
      s.wms = s.loopBatches.map listMax → s.persisted = s.wms →
      (pgLoop limit s h).wms = (pgLoop limit s h).loopBatches.map listMax
      ∧ (pgLoop limit s h).persisted = (pgLoop limit s h).wms := by
  intro h
  induction h with
  | nil => intro s hw hp; exact ⟨hw, hp⟩
  | cons m rest ih =>
    intro s hw hp
    show (pgLoop limit (pgStep limit s m) rest).wms
          = (pgLoop limit (pgStep limit s m) rest).loopBatches.map listMax
        ∧ (pgLoop limit (pgStep limit s m) rest).persisted
          = (pgLoop limit (pgStep limit s m) rest).wms
    apply ih
    · by_cases hc : s.count = limit
      · show (pgStep limit s m).wms = (pgStep limit s m).loopBatches.map listMax
        simp [pgStep, hc, hw]
      · show (pgStep limit s m).wms = (pgStep limit s m).loopBatches.map listMax
        simp [pgStep, hc, hw]
    · by_cases hc : s.count = limit
      · show (pgStep limit s m).persisted = (pgStep limit s m).wms
        simp [pgStep, hc, hp]
      · show (pgStep limit s m).persisted = (pgStep limit s m).wms
        simp [pgStep, hc, hp]

/-- A non-empty buffer, or any remaining history, leaves the buffer
non-empty at loop exit (after any history element the buffer holds at least
the element just fetched). -/
theorem pgLoop_buf_ne (limit : Nat) :
    ∀ (h : List Nat) (s : PgState), (s.buf ≠ [] ∨ h ≠ []) →
      (pgLoop limit s h).buf ≠ [] := by
  intro h
  induction h with
  | nil =>
    intro s hs
    rcases hs with h1 | h1
    · exact h1
    · exact absurd rfl h1
  | cons m rest ih =>
    intro s _
    show (pgLoop limit (pgStep limit s m) rest).buf ≠ []
    apply ih
    left
    by_cases hc : s.count = limit
    · simp [pgStep, hc]
    · simp [pgStep, hc]

/-- Claim C6: across one run, under the source capability contract (history
is fetched in strictly ascending id order past the resumption point, and the
seeded backlog ids all precede the new history ids), the sequence of values
assigned to `last_read_message_id` is non-decreasing from batch to batch,
and at run end it equals the maximum id seen across the whole run
(backlog-seeded messages included). -/
theorem watermark_monotone (backlog history : List Nat) (limit initLast : Nat)
    (hlim : 0 < limit)
    (hbh : ∀ b ∈ backlog, ∀ h ∈ history, b < h)
    (hsort : history.Pairwise (· < ·)) :
    (begin_import backlog history limit initLast).wms.Pairwise (· ≤ ·)
    ∧ (backlog ++ history ≠ [] →
        (begin_import backlog history limit initLast).last
          = listMax (backlog ++ history)) := by
  have hinv0 : pgInv ⟨backlog, backlog.length, initLast, [], [], []⟩ history := by
    unfold pgInv
    refine ⟨List.Pairwise.nil, ?_, ?_, ?_⟩
    · intro w hw; cases hw
    · intro w hw; cases hw
    · exact hbh
  have hinv := pgLoop_inv limit history _ hinv0 hsort
  unfold pgInv at hinv
  obtain ⟨hw1, hw2, _, _⟩ := hinv
  have hjoin := pgLoop_join limit history ⟨backlog, backlog.length, initLast, [], [], []⟩
  have hwm := pgLoop_wms_persisted limit history
    ⟨backlog, backlog.length, initLast, [], [], []⟩ rfl rfl
  have hbne := pgLoop_buf_ne limit history ⟨backlog, backlog.length, initLast, [], [], []⟩
  simp only [begin_import]
  set s := pgLoop limit ⟨backlog, backlog.length, initLast, [], [], []⟩ history with hs
  by_cases hbe : s.buf.isEmpty
  · rw [if_pos hbe]
    constructor
    · exact hw1
    · intro hne
      exfalso
      have hb2 : s.buf ≠ [] := by
        apply hbne
        rcases backlog with _ | ⟨b, bs⟩
        · right; simpa using hne
        · left; simp
      exact hb2 (List.isEmpty_iff.mp hbe)
  · rw [if_neg hbe]
    constructor
    · show (s.wms ++ [listMax s.buf]).Pairwise (· ≤ ·)
      rw [List.pairwise_append]
      refine ⟨hw1, List.pairwise_singleton _ _, ?_⟩
      intro a ha b hb
      rw [List.mem_singleton.mp hb]
      exact hw2 a ha
    · intro _
      show listMax s.buf = listMax (backlog ++ history)
      have hj : joinAll s.loopBatches ++ s.buf = backlog ++ history := by
        simpa [joinAll] using hjoin
      rw [← hj, listMax_append]
      have hle : listMax (joinAll s.loopBatches) ≤ listMax s.buf := by
        apply listMax_joinAll_le
        intro b hb
        apply hw2
        rw [hwm.1]
        exact List.mem_map_of_mem listMax hb
      omega

/-- Witness for claim C6 at a concrete run (backlog seeded, two batches). -/
theorem watermark_monotone_witness :
    (begin_import [2, 3] [5, 6, 7] 2 4).wms.Pairwise (· ≤ ·)
    ∧ ([2, 3] ++ [5, 6, 7] ≠ ([] : List Nat) →
        (begin_import [2, 3] [5, 6, 7] 2 4).last = listMax ([2, 3] ++ [5, 6, 7])) :=
  watermark_monotone [2, 3] [5, 6, 7] 2 4 (by decide) (by decide) (by decide)

/-- One pagination step preserves the size bookkeeping. -/
theorem pgStep_sizeInv (limit : Nat) (s : PgState) (m : Nat)
    (hinv : pgSizeInv limit s) : pgSizeInv limit (pgStep limit s m) := by
  unfold pgSizeInv at hinv ⊢
  obtain ⟨hcle, hph⟩ := hinv
  by_cases hc : s.count = limit
  · have e1 : pgStep limit s m =
        { buf := [m], count := 0, last := listMax s.buf,
          loopBatches := s.loopBatches ++ [s.buf],
          wms := s.wms ++ [listMax s.buf],
          persisted := s.persisted ++ [listMax s.buf] } := by
      simp [pgStep, hc]
    rw [e1]
    refine ⟨Nat.zero_le _, Or.inr ⟨rfl, ?_⟩⟩
    rcases hph with ⟨hb, hcnt⟩ | ⟨hcnt, f, t, hbt, hf, ht⟩
    · refine ⟨s.buf, [], ?_, ?_, ?_⟩
      · show s.loopBatches ++ [s.buf] = [s.buf]
        rw [hb]
        rfl
      · omega
      · intro b hb2
        cases hb2
    · refine ⟨f, t ++ [s.buf], ?_, hf, ?_⟩
      · show s.loopBatches ++ [s.buf] = f :: (t ++ [s.buf])
        rw [hbt]
        rfl
      · intro b hb2
        rcases List.mem_append.mp hb2 with h1 | h1
        · exact ht b h1
        · rw [List.mem_singleton.mp h1]
          omega
  · have e1 : pgStep limit s m =
        { s with count := s.count + 1, buf := s.buf ++ [m] } := by
      simp [pgStep, hc]
    rw [e1]
    have hlt : s.count < limit := Nat.lt_of_le_of_ne hcle hc
    refine ⟨hlt, ?_⟩
    rcases hph with ⟨hb, hcnt⟩ | ⟨hcnt, f, t, hbt, hf, ht⟩
    · left
      refine ⟨hb, ?_⟩
      show s.count + 1 = (s.buf ++ [m]).length
      simp only [List.length_append, List.length_singleton]
      omega
    · right
      refine ⟨?_, f, t, hbt, hf, ht⟩
      show s.count + 1 + 1 = (s.buf ++ [m]).length
      simp only [List.length_append, List.length_singleton]
      omega

/-- The size bookkeeping survives the whole loop. -/
theorem pgLoop_sizeInv (limit : Nat) :
    ∀ (h : List Nat) (s : PgState), pgSizeInv limit s →
      pgSizeInv limit (pgLoop limit s h) := by
  intro h
  induction h with
  | nil => intro s hs; exact hs
  | cons m rest ih =>
    intro s hs
    exact ih (pgStep limit s m) (pgStep_sizeInv limit s m hs)

/-- Claim C3, counterexample.  With `pageSize = 1` and history `[1, 2, 3, 4]`
the non-final (in-loop, checkpointed) dispatches are on `[1]` and `[2, 3]`:
the second non-final invocation carries 2 messages, not `pageSize = 1`,
because the counter restarts at 0 while the buffer already retains the
triggering message. -/
theorem pagination_batch_size_cex :
    (begin_import [] [1, 2, 3, 4] 1 0).nonFinalBatches = [[1], [2, 3]]
    ∧ ¬ (∀ b ∈ (begin_import [] [1, 2, 3, 4] 1 0).nonFinalBatches,
          b.length = 1) := by
  decide

/-- Claim C3 (amended): when the seeded backlog holds at most `pageSize`
messages, the FIRST non-final Batch Dispatcher invocation is on exactly
`pageSize` messages and every later non-final invocation is on
`pageSize + 1` messages (the counter restarts at 0 while the buffer retains
the just-fetched triggering message); each non-final invocation still sets
`last_read_message_id` to the returned watermark and persists it
immediately (`persisted` matches the watermarks of the non-final batches,
and every watermark is the batch maximum). -/
theorem pagination_batch_sizes (backlog history : List Nat)
    (limit initLast : Nat) (hlim : 0 < limit)
    (hbl : backlog.length ≤ limit) :
    (∀ first rest,
      (begin_import backlog history limit initLast).nonFinalBatches
          = first :: rest →
      first.length = limit ∧ ∀ b ∈ rest, b.length = limit + 1)
    ∧ (begin_import backlog history limit initLast).persisted
        = ((begin_import backlog history limit initLast).nonFinalBatches).map
            listMax
    ∧ (begin_import backlog history limit initLast).wms
        = ((begin_import backlog history limit initLast).batches).map
            listMax := by
  have hsz := pgLoop_sizeInv limit history
    ⟨backlog, backlog.length, initLast, [], [], []⟩ ⟨hbl, Or.inl ⟨rfl, rfl⟩⟩
  unfold pgSizeInv at hsz
  have hwm := pgLoop_wms_persisted limit history
    ⟨backlog, backlog.length, initLast, [], [], []⟩ rfl rfl
  simp only [begin_import]
  set s := pgLoop limit ⟨backlog, backlog.length, initLast, [], [], []⟩ history with hs
  have hfirst : ∀ first rest, s.loopBatches = first :: rest →
      first.length = limit ∧ ∀ b ∈ rest, b.length = limit + 1 := by
    intro first rest hfr
    obtain ⟨_, hph⟩ := hsz
    rcases hph with ⟨hb, _⟩ | ⟨_, f, t, hbt, hf, ht⟩
    · rw [hb] at hfr
      cases hfr
    · rw [hbt] at hfr
      injection hfr with hf2 ht2
      rw [← hf2, ← ht2]
      exact ⟨hf, ht⟩
  by_cases hbe : s.buf.isEmpty
  · rw [if_pos hbe]
    refine ⟨hfirst, ?_, ?_⟩
    · show s.persisted = s.loopBatches.map listMax
      rw [hwm.2, hwm.1]
    · exact hwm.1
  · rw [if_neg hbe]
    refine ⟨hfirst, ?_, ?_⟩
    · show s.persisted = s.loopBatches.map listMax
      rw [hwm.2, hwm.1]
    · show s.wms ++ [listMax s.buf] = (s.loopBatches ++ [s.buf]).map listMax
      rw [List.map_append, hwm.1]
      rfl

/-- Witness for the amended claim C3 at the concrete counterexample run. -/
theorem pagination_batch_sizes_witness :
    List.length [1] = 1
    ∧ (begin_import [] [1, 2, 3, 4] 1 0).persisted
        = ((begin_import [] [1, 2, 3, 4] 1 0).nonFinalBatches).map listMax :=
  ⟨((pagination_batch_sizes [] [1, 2, 3, 4] 1 0 (by decide) (by decide)).1
      [1] [[2, 3]] (by decide)).1,
   (pagination_batch_sizes [] [1, 2, 3, 4] 1 0 (by decide) (by decide)).2.1⟩
